import Mathlib

/-!
Verification development for the proposal-reviewer-portal ingestion,
deduplication and fan-out pipeline.  The TypeScript sources are shallowly
embedded: persistent tables become Lean lists, external calls become oracle
parameters, and each route handler becomes a pure state-transforming
function.  Strings are modelled as `List Char` where character-level
scanning matters and as `String` elsewhere.
-/

/-! ## Commit-hash extraction (src/lib/nns.ts, extractCommitHash)

The source uses the regular expression `\b([a-f0-9]{40})\b` with the `g` and
`i` flags over the combined proposal text and keeps the first (leftmost)
match.  We embed the regex semantics directly: a match at position `i`
requires 40 case-insensitive hex characters and a word boundary on both
sides (JavaScript word characters are ASCII alphanumerics and underscore).
-/

def isHexDigit (c : Char) : Bool :=
  c.isDigit || (decide ('a' ≤ c) && decide (c ≤ 'f')) || (decide ('A' ≤ c) && decide (c ≤ 'F'))

def isWordChar (c : Char) : Bool :=
  c.isAlphanum || c == '_'

/-- Word boundary immediately before position `i` of `s` (regex `\b`). -/
def boundaryBefore (s : List Char) : Nat → Bool
  | 0 => true
  | j + 1 => ! isWordChar (s.getD j ' ')

/-- The regex `\b[a-f0-9]{40}\b` (case-insensitive) matches starting at
position `i` of `s`.  Out-of-range lookups yield a blank, which is not a
word character, so the trailing boundary test also covers the end of the
string. -/
def hexMatchAt (s : List Char) (i : Nat) : Bool :=
  decide (i + 40 ≤ s.length)
    && ((s.drop i).take 40).all isHexDigit
    && boundaryBefore s i
    && ! isWordChar (s.getD (i + 40) ' ')

/-- Leftmost-match scan of the regex engine: try positions `i`,
`i + 1`, ... while fuel lasts. -/
def scanHash (s : List Char) : Nat → Nat → Option Nat
  | 0, _ => none
  | fuel + 1, i => if hexMatchAt s i then some i else scanHash s fuel (i + 1)

/-- `extractCommitHash` from src/lib/nns.ts: the first 40-hex-char
word-bounded token of the text, or `none`. -/
def extractCommitHash (s : List Char) : Option (List Char) :=
  (scanHash s (s.length + 1) 0).map (fun i => (s.drop i).take 40)

/-- The combined text the poller scans (route line 112):
title, summary and url joined by newlines. -/
def combinedText (title summary url : List Char) : List Char :=
  title ++ '\n' :: summary ++ '\n' :: url

/-- The commit hash the poller stores for a proposal with the given text
fields (check-proposals route, lines 111-113). -/
def storedCommitHash (title summary url : List Char) : Option (List Char) :=
  extractCommitHash (combinedText title summary url)

/-- Specification-side reading of the claim: `tok` is the first
40-hexadecimal-character word-bounded token of `s`. -/
def IsFirstHexToken (s tok : List Char) : Prop :=
  ∃ i, hexMatchAt s i = true ∧ (∀ j, j < i → hexMatchAt s j = false)
    ∧ tok = (s.drop i).take 40

/-! ## Data model

Rows of the durable tables (supabase migrations + src/lib/db.ts).
-/

structure Subscription where
  id : Nat
  endpoint : String
  p256dh : String
  auth : String
  email : Option String
  topics : Option (List Nat)
  last_success : Option Nat
  deriving Repr, DecidableEq

structure ProposalRow where
  proposal_id : Nat
  topic : String
  title : List Char
  commit_hash : Option (List Char)
  proposal_url : Option (List Char)
  notified : Bool
  lines_added : Option Nat
  lines_removed : Option Nat
  deriving Repr, DecidableEq

inductive Channel where
  | push
  | email
  deriving Repr, DecidableEq

inductive DeliveryStatus where
  | sent
  | failed
  | delivered
  deriving Repr, DecidableEq

structure LogRow where
  proposal_id : Nat
  subscription_id : Nat
  channel : Channel
  status : DeliveryStatus
  error : Option String
  deriving Repr, DecidableEq

structure DB where
  push_subscriptions : List Subscription
  proposals_seen : List ProposalRow
  notification_log : List LogRow
  deriving Repr, DecidableEq

/-! ## Store operations (src/lib/db.ts) -/

/-- `markProposalSeen`: upsert with `ignoreDuplicates: true` - insert if the
proposal id is absent, otherwise leave the existing row untouched. -/
def markProposalSeen (db : DB) (pid : Nat) (topic : String) (title : List Char)
    (commitHash : Option (List Char)) (url : Option (List Char)) : DB :=
  if db.proposals_seen.any (fun r => r.proposal_id == pid) then db
  else { db with proposals_seen := db.proposals_seen ++
          [{ proposal_id := pid, topic := topic, title := title,
             commit_hash := commitHash, proposal_url := url,
             notified := false, lines_added := none, lines_removed := none }] }

/-- `markProposalNotified`: set `notified = true` on the matching row. -/
def markProposalNotified (db : DB) (pid : Nat) : DB :=
  { db with proposals_seen := db.proposals_seen.map (fun r =>
      if r.proposal_id == pid then { r with notified := true } else r) }

/-- `deleteSubscription`: delete every registry row with this endpoint. -/
def deleteSubscription (db : DB) (endpoint : String) : DB :=
  { db with push_subscriptions :=
      db.push_subscriptions.filter (fun s => ! (s.endpoint == endpoint)) }

/-- `updateSubscriptionSuccess`: stamp `last_success` on the matching row. -/
def updateSubscriptionSuccess (db : DB) (endpoint : String) (now : Nat) : DB :=
  { db with push_subscriptions := db.push_subscriptions.map (fun s =>
      if s.endpoint == endpoint then { s with last_success := some now } else s) }

/-- `logNotification`: append-only insert into the attempt log. -/
def logNotification (db : DB) (pid sid : Nat) (channel : Channel)
    (status : DeliveryStatus) (error : Option String) : DB :=
  { db with notification_log := db.notification_log ++
      [{ proposal_id := pid, subscription_id := sid, channel := channel,
         status := status, error := error }] }

/-- `updateProposalDiffStats`: write resolved line counts on the matching row. -/
def updateProposalDiffStats (db : DB) (pid : Nat) (linesAdded linesRemoved : Nat) : DB :=
  { db with proposals_seen := db.proposals_seen.map (fun r =>
      if r.proposal_id == pid then
        { r with lines_added := some linesAdded, lines_removed := some linesRemoved }
      else r) }

/-- `saveSubscription` (db.ts with topic preferences): upsert on endpoint.
The JavaScript default `topics || [17]` replaces only `undefined`/`null`
with `[17]`; an explicit array, including the empty one, is stored as is
(an empty array is truthy in JavaScript).  The conflict branch updates the
provided columns and keeps `id` and `last_success`; the insert branch takes
a fresh row id from the caller, standing for the generated UUID. -/
def saveSubscription (store : List Subscription) (endpoint p256dh auth : String)
    (email : Option String) (topics : Option (List Nat)) (newId : Nat) :
    List Subscription :=
  if store.any (fun s => s.endpoint == endpoint) then
    store.map (fun s => if s.endpoint == endpoint then
        { s with p256dh := p256dh, auth := auth, email := email,
                 topics := some (topics.getD [17]) }
      else s)
  else store ++ [{ id := newId, endpoint := endpoint, p256dh := p256dh,
                   auth := auth, email := email,
                   topics := some (topics.getD [17]), last_success := none }]

/-! ## Primary notification channel (src/lib/web-push-server.ts)

`webpush.sendNotification` either resolves, rejects with an HTTP status
code, or rejects without one.  `sendPushNotification` returns `true` on
success, re-raises the distinguishable expiry signal on status 410/404,
and otherwise swallows the failure and returns `false`.  The `Except`
error carries the thrown message. -/

inductive PushSendResult where
  | delivered
  | httpErr (status : Nat)
  | errNoStatus
  deriving Repr, DecidableEq

def sendPushNotification : PushSendResult → Except String Bool
  | .delivered => .ok true
  | .httpErr status =>
      if status == 410 || status == 404 then .error "SUBSCRIPTION_EXPIRED"
      else .ok false
  | .errNoStatus => .ok false

/-! ## Notification dispatcher (check-proposals route, lines 51-276)

External collaborators are oracles: the push transport outcome and the
email transport outcome per (proposal, subscription) pair, the async
diff-stat lookup per proposal, and the wall clock. -/

structure ProposalInfo where
  id : Nat
  topic : Nat
  title : List Char
  summary : List Char
  url : List Char
  deriving Repr, DecidableEq

structure Env where
  pushResult : Nat → Nat → PushSendResult
  emailResult : Nat → Nat → Bool
  diffStats : Nat → Option (Nat × Nat)
  now : Nat

/-- Route lines 184-186: a subscriber is notified when its topic array
contains the topic; a row whose `topics` column is null is notified for
every topic. -/
def wantsNotif (sub : Subscription) (topic : Nat) : Bool :=
  match sub.topics with
  | some l => l.contains topic
  | none => true

/-- Email fallback block (route lines 231-251): attempted only when the
subscription has a fallback address, logging exactly one email row. -/
def emailFallback (env : Env) (db : DB) (p : ProposalInfo) (sub : Subscription) : DB :=
  match sub.email with
  | none => db
  | some _ =>
      if env.emailResult p.id sub.id then
        logNotification db p.id sub.id .email .sent none
      else
        logNotification db p.id sub.id .email .failed none

/-- Per-subscription body of the dispatch loop (route lines 182-253).
On push success: stamp the subscription and log `sent`.  A `false` return
is thrown as `Error("Push failed")` and handled by the same catch as a
transport exception: the expiry signal deletes the subscription before
logging, every failure path logs a `push`/`failed` row, and then the email
fallback runs. -/
def notifySubscriber (env : Env) (db : DB) (p : ProposalInfo) (sub : Subscription) : DB :=
  if ! wantsNotif sub p.topic then db
  else
    match sendPushNotification (env.pushResult p.id sub.id) with
    | .ok true =>
        logNotification (updateSubscriptionSuccess db sub.endpoint env.now)
          p.id sub.id .push .sent none
    | .ok false =>
        emailFallback env
          (logNotification db p.id sub.id .push .failed (some "Push failed")) p sub
    | .error msg =>
        if msg == "SUBSCRIPTION_EXPIRED" then
          emailFallback env
            (logNotification (deleteSubscription db sub.endpoint)
              p.id sub.id .push .failed (some "expired")) p sub
        else
          emailFallback env
            (logNotification db p.id sub.id .push .failed (some msg)) p sub

/-- The log rows the email fallback block contributes for one
(proposal, subscription) pair. -/
def emailRowsOf (env : Env) (p : ProposalInfo) (sub : Subscription) : List LogRow :=
  match sub.email with
  | none => []
  | some _ =>
      if env.emailResult p.id sub.id then
        [{ proposal_id := p.id, subscription_id := sub.id, channel := .email,
           status := .sent, error := none }]
      else
        [{ proposal_id := p.id, subscription_id := sub.id, channel := .email,
           status := .failed, error := none }]

/-- The rows a single subscription contributes to the attempt log.  They
depend only on the oracles, the proposal and the subscription, never on
the database state. -/
def notifyRows (env : Env) (p : ProposalInfo) (sub : Subscription) : List LogRow :=
  if ! wantsNotif sub p.topic then []
  else
    match sendPushNotification (env.pushResult p.id sub.id) with
    | .ok true =>
        [{ proposal_id := p.id, subscription_id := sub.id, channel := .push,
           status := .sent, error := none }]
    | .ok false =>
        { proposal_id := p.id, subscription_id := sub.id, channel := .push,
          status := .failed, error := some "Push failed" } :: emailRowsOf env p sub
    | .error msg =>
        if msg == "SUBSCRIPTION_EXPIRED" then
          { proposal_id := p.id, subscription_id := sub.id, channel := .push,
            status := .failed, error := some "expired" } :: emailRowsOf env p sub
        else
          { proposal_id := p.id, subscription_id := sub.id, channel := .push,
            status := .failed, error := some msg } :: emailRowsOf env p sub

/-- Dispatch one proposal over the subscription snapshot read at the start
of the poll invocation (the same array is reused for all proposals even
after deletions). -/
def dispatchProposal (env : Env) (db : DB) (subs : List Subscription)
    (p : ProposalInfo) : DB :=
  subs.foldl (fun d sub => notifySubscriber env d p sub) db

/-! ## Proposal poller (src/lib/nns.ts + check-proposals route) -/

/-- `MIN_PROPOSAL_ID` from src/lib/nns.ts. -/
def MIN_PROPOSAL_ID : Nat := 140000

/-- `Object.values(PROPOSAL_TOPICS)` in insertion order. -/
def PROPOSAL_TOPIC_VALUES : List Nat :=
  [0, 2, 3, 4, 5, 6, 7, 8, 9, 10, 12, 13, 14, 17, 19, 20, 21, 24]

/-- `TOPIC_NAMES[topic] || Topic <topic>` (route line 119). -/
def topicName (t : Nat) : String :=
  match t with
  | 0 => "Neuron Management"
  | 2 => "Exchange Rate"
  | 3 => "Network Economics"
  | 4 => "Governance"
  | 5 => "Node Admin"
  | 6 => "Participant Management"
  | 7 => "Subnet Management"
  | 8 => "Network Canister Management"
  | 9 => "KYC"
  | 10 => "Node Provider Rewards"
  | 12 => "IC OS Version Deployment"
  | 13 => "IC OS Version Election"
  | 14 => "SNS and Neurons Fund"
  | 17 => "Protocol Canister Management"
  | 19 => "Subnet Replica Version Management"
  | 20 => "Replica Version Management"
  | 21 => "SNS Decentralization Sale"
  | 24 => "API Boundary Node"
  | n => "Topic " ++ toString n

/-- `filterNewProposals` from src/lib/nns.ts: keep proposals at or above
the floor, in a tracked topic, and not yet seen. -/
def filterNewProposals (proposals : List ProposalInfo) (trackedTopics : List Nat)
    (seenIds : List Nat) (minProposalId : Nat) : List ProposalInfo :=
  proposals.filter (fun p =>
    ! decide (p.id < minProposalId)
      && trackedTopics.contains p.topic
      && ! seenIds.contains p.id)

/-- Route lines 69-79: the tracked set is the union of all subscription
topic arrays, defaulting to all known topics when that union is empty. -/
def trackedTopicsOf (subs : List Subscription) : List Nat :=
  let allTopics := (subs.map (fun s => s.topics.getD [])).flatten
  if allTopics.isEmpty then PROPOSAL_TOPIC_VALUES else allTopics

/-- Per-proposal body of the poll loop (route lines 108-256): persist the
row with the extracted commit hash, let the fire-and-forget diff-stat task
write whatever it resolves, dispatch notifications over the subscription
snapshot, finally mark the proposal notified. -/
def processProposal (env : Env) (db : DB) (subs : List Subscription)
    (p : ProposalInfo) : DB :=
  let db := markProposalSeen db p.id (topicName p.topic) p.title
      (extractCommitHash (combinedText p.title p.summary p.url))
      (if p.url.isEmpty then none else some p.url)
  let db := match env.diffStats p.id with
    | some (a, d) => updateProposalDiffStats db p.id a d
    | none => db
  let db := dispatchProposal env db subs p
  markProposalNotified db p.id

/-- The new proposals a poll invocation works on, computed from the seen-id
set and the subscription snapshot at the start of the invocation. -/
def newProposalsOf (db : DB) (feed : List ProposalInfo) : List ProposalInfo :=
  filterNewProposals feed (trackedTopicsOf db.push_subscriptions)
    (db.proposals_seen.map (fun r => r.proposal_id)) MIN_PROPOSAL_ID

/-- One complete poll invocation (check-proposals POST): on an empty batch
the route returns before writing anything. -/
def checkProposalsPass (env : Env) (db : DB) (feed : List ProposalInfo) : DB :=
  let subs := db.push_subscriptions
  (newProposalsOf db feed).foldl (fun d p => processProposal env d subs p) db

/-! ## Forum thread resolver (detect-forum-posts route + db.ts)

The forum table keys rows by (proposal_id, forum_url); the resolver marks
the first verified thread canonical.  The forum search itself is an oracle
mapping a proposal id to the verified thread it finds, if any. -/

structure ForumThread where
  proposal_id : String
  forum_url : String
  thread_title : Option String
  is_canonical : Bool
  deriving Repr, DecidableEq

/-- The row an `addForumThread` upsert writes; the canonical flag
defaults to `false` when the argument is omitted. -/
def newThreadRow (pid url : String) (title : Option String)
    (isCanonical : Option Bool) : ForumThread :=
  { proposal_id := pid, forum_url := url, thread_title := title,
    is_canonical := isCanonical.getD false }

/-- `addForumThread`: upsert on (proposal_id, forum_url). -/
def addForumThread (store : List ForumThread) (pid url : String)
    (title : Option String) (isCanonical : Option Bool) : List ForumThread :=
  if store.any (fun r => r.proposal_id == pid && r.forum_url == url) then
    store.map (fun r =>
      if r.proposal_id == pid && r.forum_url == url then
        newThreadRow pid url title isCanonical
      else r)
  else store ++ [newThreadRow pid url title isCanonical]

/-- `getProposalsWithoutCanonicalForum`: the candidate ids that have no
canonical thread yet. -/
def getProposalsWithoutCanonicalForum (store : List ForumThread)
    (ids : List String) : List String :=
  ids.filter (fun pid =>
    ! store.any (fun t => t.proposal_id == pid && t.is_canonical))

/-- Loop body of the detect-forum-posts POST (lines 303-361): for each
candidate, a found-and-verified thread is saved as canonical; otherwise
only the search log (not modelled here) changes. -/
def resolverLoop (search : String → Option (String × String)) :
    List String → List ForumThread → List ForumThread
  | [], store => store
  | pid :: rest, store =>
      let store := match search pid with
        | some (url, title) => addForumThread store pid url (some title) (some true)
        | none => store
      resolverLoop search rest store

/-- One Forum Thread Resolver run: filter the recent ids to those without
a canonical thread (computed once, at the start of the run), then process
them in order. -/
def detectForumPostsRun (search : String → Option (String × String))
    (store : List ForumThread) (ids : List String) : List ForumThread :=
  resolverLoop search (getProposalsWithoutCanonicalForum store ids) store

/-- A whole sequence of resolver runs, each with its own candidate ids and
its own search outcomes. -/
def resolverRuns (runs : List ((String → Option (String × String)) × List String))
    (store : List ForumThread) : List ForumThread :=
  runs.foldl (fun st run => detectForumPostsRun run.1 st run.2) store

/-! ## Diff-stats backfill (backfill route + db.ts getProposalsNeedingDiffStats) -/

/-- `tag` occurs as a contiguous run inside the second list (the
JavaScript `String.includes` test). -/
def containsSeq (tag : List Char) : List Char → Bool
  | [] => tag.isEmpty
  | c :: rest => tag.isPrefixOf (c :: rest) || containsSeq tag rest

/-- Case-insensitive `ilike %github.com%` test on the stored url. -/
def urlHasGithub : Option (List Char) → Bool
  | none => false
  | some u => containsSeq "github.com".toList (u.map Char.toLower)

/-- `getProposalsNeedingDiffStats` (db.ts): rows whose `lines_added` is
still null and that carry either a commit hash or a github url, newest
first, capped at the batch size.  Its signature takes only the limit; the
backfill route also passes a force flag, which this signature drops. -/
def getProposalsNeedingDiffStats (db : DB) (limit : Nat) : List ProposalRow :=
  (((db.proposals_seen.filter (fun r =>
      r.lines_added == none
        && (! (r.commit_hash == none) || urlHasGithub r.proposal_url))).insertionSort
    (fun a b => b.proposal_id ≤ a.proposal_id)).take limit)

/-- Outcome of the three-stage GitHub resolution for one proposal:
resolved stats, a clean miss (which the route records as the 0/0
sentinel), or a thrown error (which the route counts as failed and leaves
the row untouched). -/
inductive DiffOutcome where
  | stats (additions deletions : Nat)
  | noData
  | errored
  deriving Repr, DecidableEq

/-- Per-candidate body of the backfill loop (backfill route): store the
resolved stats, or the explicit 0/0 sentinel on a clean miss. -/
def backfillStep (fetch : Nat → DiffOutcome) (db : DB) (pid : Nat) : DB :=
  match fetch pid with
  | .stats a d => updateProposalDiffStats db pid a d
  | .noData => updateProposalDiffStats db pid 0 0
  | .errored => db

/-- One backfill invocation: select the candidate batch, then resolve each
candidate.  The route computes `forceRefresh` from the query string and
passes it on, but the selection signature ignores the extra argument. -/
def backfillPass (fetch : Nat → DiffOutcome) (db : DB) (batchSize : Nat)
    (_force : Bool) : DB :=
  (getProposalsNeedingDiffStats db batchSize).foldl
    (fun d r => backfillStep fetch d r.proposal_id) db

/-! ## Enrichment trigger coordinators (trigger routes + src/lib/github.ts)

The job-listing API returns recent workflow runs; a run matches a proposal
when its display title contains the fixed naming tag followed by the id.
The listing itself is an oracle: `none` stands for an unreachable or
non-OK listing response, on which every check returns its failure
default. -/

structure WorkflowRun where
  display_title : Option (List Char)
  status : Option String
  conclusion : Option String
  created_at : Option Int
  deriving Repr, DecidableEq

structure ProposalDetail where
  expectedWasmHash : Option String
  canisterId : Option String
  deriving Repr, DecidableEq

/-- `!!(proposalDetail.expectedWasmHash || proposalDetail.canisterId)`. -/
def isUpgradeProposal (d : ProposalDetail) : Bool :=
  ! (d.expectedWasmHash == none) || ! (d.canisterId == none)

/-- `display_title?.includes(tag)`. -/
def runTitleMatches (tag : List Char) (r : WorkflowRun) : Bool :=
  match r.display_title with
  | some t => containsSeq tag t
  | none => false

def verifyTag (pid : Nat) : List Char :=
  ("Verify Proposal #" ++ toString pid).toList

def commentaryTag (pid : Nat) : List Char :=
  ("Commentary for Proposal #" ++ toString pid).toList

/-- `getVerificationRunForProposal` (src/lib/github.ts): the first listed
run whose display title contains the verify tag, regardless of status,
outcome or age. -/
def getVerificationRunForProposal (listing : Option (List WorkflowRun))
    (pid : Nat) : Option WorkflowRun :=
  match listing with
  | none => none
  | some runs => runs.find? (runTitleMatches (verifyTag pid))

/-- `hasRecentCommentaryRun` (github.ts): any commentary-tagged run whose
creation time lies after `now` minus the window in minutes. -/
def hasRecentCommentaryRun (listing : Option (List WorkflowRun)) (now : Int)
    (pid : Nat) (withinMinutes : Int) : Bool :=
  match listing with
  | none => false
  | some runs => runs.any (fun r =>
      runTitleMatches (commentaryTag pid) r
        && (match r.created_at with
            | some t => decide (now - withinMinutes * 60 * 1000 < t)
            | none => false))

/-- `hasSuccessfulCommentary` (github.ts): any commentary-tagged run that
completed with a success outcome.  Defined in the library but not called
by the trigger routes; the claim-side rule below uses it. -/
def hasSuccessfulCommentary (listing : Option (List WorkflowRun))
    (pid : Nat) : Bool :=
  match listing with
  | none => false
  | some runs => runs.any (fun r =>
      runTitleMatches (commentaryTag pid) r
        && r.status == some "completed"
        && r.conclusion == some "success")

inductive TriggerDecision where
  | skip (reason : String)
  | trigger
  deriving Repr, DecidableEq

/-- Per-proposal decision of the verification trigger coordinator
(check-proposals file, trigger-verification POST lines 404-443). -/
def verificationDecision (minId pid : Nat) (detail : Option ProposalDetail)
    (listing : Option (List WorkflowRun)) : TriggerDecision :=
  if pid < minId then .skip "below minimum proposal ID"
  else
    match detail with
    | none => .skip "could not fetch proposal details"
    | some d =>
        if ! isUpgradeProposal d then .skip "not an upgrade proposal"
        else if (getVerificationRunForProposal listing pid).isSome then
          .skip "verification already exists"
        else .trigger

/-- Per-proposal decision of the commentary trigger coordinator
(trigger-commentary POST lines 112-171).  `commentaryCount` is the number
of commentary rows already stored for the proposal. -/
def commentaryDecision (minId pid : Nat) (detail : Option ProposalDetail)
    (commentaryCount : Nat) (listing : Option (List WorkflowRun))
    (now : Int) : TriggerDecision :=
  if pid < minId then .skip "below minimum proposal ID"
  else
    match detail with
    | none => .skip "could not fetch proposal details"
    | some d =>
        if ! isUpgradeProposal d then .skip "not an upgrade proposal"
        else if commentaryCount > 0 then .skip "commentary already exists"
        else if hasRecentCommentaryRun listing now pid 30 then
          .skip "recent commentary run exists"
        else .trigger

/-- The decision rule exactly as the claim states it, instantiated for the
commentary coordinator: floor, code-changing shape, successful listed job,
any listed job within the trailing window, otherwise trigger.  The claim
mentions no database check, so the stored commentary count plays no role
here. -/
def claimCommentaryDecision (minId pid : Nat) (detail : Option ProposalDetail)
    (listing : Option (List WorkflowRun)) (now : Int)
    (windowMinutes : Int) : TriggerDecision :=
  if pid < minId then .skip "below the verification-eligible floor"
  else if ! (match detail with
             | some d => isUpgradeProposal d
             | none => false) then .skip "not a code-changing proposal"
  else if hasSuccessfulCommentary listing pid then
    .skip "successful job already listed"
  else if hasRecentCommentaryRun listing now pid windowMinutes then
    .skip "job listed within the recency window"
  else .trigger

/-! ## Derived notions used by the statements -/

/-- The canonical rows a store holds for one proposal id. -/
def canonicalRowsFor (store : List ForumThread) (pid : String) : List ForumThread :=
  store.filter (fun t => t.proposal_id == pid && t.is_canonical)

/-- The at-most-one-canonical invariant of the forum table. -/
def AtMostOneCanonical (store : List ForumThread) : Prop :=
  ∀ pid, (canonicalRowsFor store pid).length ≤ 1

/-- The (proposal_id, forum_url) key column pair of the forum table. -/
def threadKeys (store : List ForumThread) : List (String × String) :=
  store.map (fun t => (t.proposal_id, t.forum_url))

/-- The runs a listing response exposes; an unreachable listing exposes
none. -/
def listedRuns : Option (List WorkflowRun) → List WorkflowRun
  | none => []
  | some rs => rs

/-- Ordered skip rules the verification coordinator actually implements,
stated declaratively: floor, detail availability, code-changing shape, and
the existence of any listed run carrying the verify tag, of any status and
any age. -/
def amendedVerificationRule (minId pid : Nat) (detail : Option ProposalDetail)
    (listing : Option (List WorkflowRun)) : TriggerDecision :=
  if pid < minId then .skip "below minimum proposal ID"
  else
    match detail with
    | none => .skip "could not fetch proposal details"
    | some d =>
        if ! isUpgradeProposal d then .skip "not an upgrade proposal"
        else if decide (∃ r ∈ listedRuns listing,
            runTitleMatches (verifyTag pid) r = true) then
          .skip "verification already exists"
        else .trigger

/-- Ordered skip rules the commentary coordinator actually implements,
stated declaratively: floor, detail availability, code-changing shape, a
commentary row already stored in the local database, and any listed
commentary-tagged run less than 30 minutes old. -/
def amendedCommentaryRule (minId pid : Nat) (detail : Option ProposalDetail)
    (commentaryCount : Nat) (listing : Option (List WorkflowRun))
    (now : Int) : TriggerDecision :=
  if pid < minId then .skip "below minimum proposal ID"
  else
    match detail with
    | none => .skip "could not fetch proposal details"
    | some d =>
        if ! isUpgradeProposal d then .skip "not an upgrade proposal"
        else if commentaryCount > 0 then .skip "commentary already exists"
        else if decide (∃ r ∈ listedRuns listing,
            runTitleMatches (commentaryTag pid) r = true
              ∧ ∃ t, r.created_at = some t ∧ now - t < 30 * 60000) then
          .skip "recent commentary run exists"
        else .trigger

/-- Concrete job listing for the coordinator counterexample: one
commentary run for proposal 140001 that completed successfully a long
time ago. -/
def staleSuccessListing : Option (List WorkflowRun) :=
  some [{ display_title := some (commentaryTag 140001),
          status := some "completed", conclusion := some "success",
          created_at := some 0 }]

/-- Every stored row for this proposal id carries `notified = true`. -/
def NotifiedAll (db : DB) (pid : Nat) : Prop :=
  ∀ row ∈ db.proposals_seen, row.proposal_id = pid → row.notified = true

/-! ## Concrete sample data used by the witness statements -/

def wEnvDelivered : Env :=
  { pushResult := fun _ _ => PushSendResult.delivered,
    emailResult := fun _ _ => true, diffStats := fun _ => none, now := 0 }

def wEnvGone : Env :=
  { pushResult := fun _ _ => PushSendResult.httpErr 410,
    emailResult := fun _ _ => true, diffStats := fun _ => none, now := 0 }

def wEnvFail : Env :=
  { pushResult := fun _ _ => PushSendResult.errNoStatus,
    emailResult := fun _ _ => true, diffStats := fun _ => none, now := 0 }

def wSub : Subscription :=
  { id := 1, endpoint := "ep1", p256dh := "k1", auth := "k2",
    email := some "user@example.org", topics := some [17], last_success := none }

def wSubEmptyTopics : Subscription :=
  { id := 2, endpoint := "ep2", p256dh := "k1", auth := "k2",
    email := none, topics := some [], last_success := none }

def wProposal : ProposalInfo :=
  { id := 140102, topic := 17, title := "Upgrade X".toList,
    summary := "summary".toList, url := "".toList }

def wDB : DB :=
  { push_subscriptions := [wSub], proposals_seen := [], notification_log := [] }

def wDBEmptyTopics : DB :=
  { push_subscriptions := [wSubEmptyTopics], proposals_seen := [],
    notification_log := [] }

def wSeenRow : ProposalRow :=
  { proposal_id := 140102, topic := "Protocol Canister Management",
    title := "Upgrade X".toList, commit_hash := none, proposal_url := none,
    notified := false, lines_added := some 3, lines_removed := some 1 }

def wDBSeen : DB :=
  { push_subscriptions := [wSub], proposals_seen := [wSeenRow],
    notification_log := [] }

/-! ## Lemmas about the leftmost-match scan -/

theorem hexMatchAt_false_of_len {s : List Char} {j : Nat}
    (h : s.length < j + 40) : hexMatchAt s j = false := by
  simp only [hexMatchAt, Bool.and_eq_false_iff]
  left; left; left
  simp [Nat.not_le.mpr h]

theorem scanHash_eq_some {s : List Char} :
    ∀ fuel i k, scanHash s fuel i = some k →
      hexMatchAt s k = true ∧ i ≤ k ∧
        ∀ j, i ≤ j → j < k → hexMatchAt s j = false := by
  intro fuel
  induction fuel with
  | zero => intro i k h; simp [scanHash] at h
  | succ n ih =>
      intro i k h
      by_cases hm : hexMatchAt s i = true
      · simp [scanHash, hm] at h
        subst h
        exact ⟨hm, le_refl _, fun j h1 h2 => absurd (lt_of_le_of_lt h1 h2) (lt_irrefl _)⟩
      · simp [scanHash, hm] at h
        obtain ⟨hk, hik, hmin⟩ := ih (i + 1) k h
        refine ⟨hk, le_trans (Nat.le_succ i) hik, fun j h1 h2 => ?_⟩
        rcases Nat.eq_or_lt_of_le h1 with rfl | hlt
        · simpa using hm
        · exact hmin j hlt h2

theorem scanHash_eq_none {s : List Char} :
    ∀ fuel i, scanHash s fuel i = none →
      ∀ j, i ≤ j → j < i + fuel → hexMatchAt s j = false := by
  intro fuel
  induction fuel with
  | zero => intro i _ j h1 h2; omega
  | succ n ih =>
      intro i h j h1 h2
      by_cases hm : hexMatchAt s i = true
      · simp [scanHash, hm] at h
      · simp [scanHash, hm] at h
        rcases Nat.eq_or_lt_of_le h1 with rfl | hlt
        · simpa using hm
        · exact ih (i + 1) h j hlt (by omega)

/-- C9: for every proposal, the stored commit hash is the first
40-hexadecimal-character word-bounded token of the concatenated
title, summary and url text, and it is null exactly when no such token
exists. -/
theorem c9_commit_hash_first_token (title summary url : List Char) :
    (∀ tok, storedCommitHash title summary url = some tok ↔
        IsFirstHexToken (combinedText title summary url) tok)
    ∧ (storedCommitHash title summary url = none ↔
        ∀ i, hexMatchAt (combinedText title summary url) i = false) := by
  set s : List Char := combinedText title summary url with hs
  have hbeyond : ∀ j, s.length + 1 ≤ j + 1 → hexMatchAt s j = false := by
    intro j hj
    exact hexMatchAt_false_of_len (by omega)
  constructor
  · intro tok
    constructor
    · intro h
      simp only [storedCommitHash, ← hs, extractCommitHash, Option.map_eq_some'] at h
      obtain ⟨k, hk, rfl⟩ := h
      obtain ⟨hmk, _, hmin⟩ := scanHash_eq_some _ _ _ hk
      exact ⟨k, hmk, fun j hj => hmin j (Nat.zero_le j) hj, rfl⟩
    · rintro ⟨i, hmi, hmin, rfl⟩
      simp only [storedCommitHash, ← hs, extractCommitHash]
      cases hscan : scanHash s (s.length + 1) 0 with
      | none =>
          exfalso
          have hall := scanHash_eq_none _ _ hscan
          by_cases hlen : i < s.length + 1
          · have := hall i (Nat.zero_le i) (by omega)
            rw [this] at hmi; exact Bool.false_ne_true hmi
          · have := hbeyond i (by omega)
            rw [this] at hmi; exact Bool.false_ne_true hmi
      | some k =>
          obtain ⟨hmk, _, hminK⟩ := scanHash_eq_some _ _ _ hscan
          have hik : i = k := by
            rcases Nat.lt_trichotomy i k with hlt | heq | hgt
            · have := hminK i (Nat.zero_le i) hlt
              rw [this] at hmi; exact absurd hmi Bool.false_ne_true
            · exact heq
            · have := hmin k hgt
              rw [this] at hmk; exact absurd hmk Bool.false_ne_true
          subst hik
          simp
  · constructor
    · intro h i
      simp only [storedCommitHash, ← hs, extractCommitHash, Option.map_eq_none'] at h
      have hall := scanHash_eq_none _ _ h
      by_cases hlen : i < s.length + 1
      · exact hall i (Nat.zero_le i) (by omega)
      · exact hbeyond i (by omega)
    · intro h
      simp only [storedCommitHash, ← hs, extractCommitHash, Option.map_eq_none']
      cases hscan : scanHash s (s.length + 1) 0 with
      | none => rfl
      | some k =>
          obtain ⟨hmk, _, _⟩ := scanHash_eq_some _ _ _ hscan
          rw [h k] at hmk
          exact absurd hmk Bool.false_ne_true

/-! ## Structural lemmas about the dispatcher -/

theorem emailFallback_log (env : Env) (db : DB) (p : ProposalInfo) (sub : Subscription) :
    (emailFallback env db p sub).notification_log =
      db.notification_log ++ emailRowsOf env p sub := by
  unfold emailFallback emailRowsOf
  cases sub.email with
  | none => simp
  | some a =>
      by_cases he : env.emailResult p.id sub.id
      · simp [he, logNotification]
      · simp [he, logNotification]

theorem notifySubscriber_log (env : Env) (db : DB) (p : ProposalInfo) (sub : Subscription) :
    (notifySubscriber env db p sub).notification_log =
      db.notification_log ++ notifyRows env p sub := by
  unfold notifySubscriber notifyRows
  by_cases hw : wantsNotif sub p.topic
  · simp only [hw, Bool.not_true, Bool.false_eq_true, if_false]
    cases hps : sendPushNotification (env.pushResult p.id sub.id) with
    | ok b =>
        cases b
        · simp [emailFallback_log, logNotification]
        · simp [logNotification, updateSubscriptionSuccess]
    | error msg =>
        by_cases hm : msg == "SUBSCRIPTION_EXPIRED"
        · simp [hm, emailFallback_log, logNotification, deleteSubscription]
        · simp [hm, emailFallback_log, logNotification]
  · simp [hw]

theorem dispatchProposal_log (env : Env) (db : DB) (subs : List Subscription)
    (p : ProposalInfo) :
    (dispatchProposal env db subs p).notification_log =
      db.notification_log ++ (subs.map (notifyRows env p)).flatten := by
  induction subs generalizing db with
  | nil => simp [dispatchProposal]
  | cons s rest ih =>
      simp only [dispatchProposal, List.foldl_cons, List.map_cons, List.flatten_cons]
      rw [show (List.foldl (fun d sub => notifySubscriber env d p sub)
          (notifySubscriber env db p s) rest) =
            dispatchProposal env (notifySubscriber env db p s) rest p from rfl]
      rw [ih, notifySubscriber_log, List.append_assoc]

theorem emailFallback_proposals (env : Env) (db : DB) (p : ProposalInfo)
    (sub : Subscription) :
    (emailFallback env db p sub).proposals_seen = db.proposals_seen := by
  unfold emailFallback
  cases sub.email with
  | none => rfl
  | some a =>
      by_cases he : env.emailResult p.id sub.id
      · simp [he, logNotification]
      · simp [he, logNotification]

theorem notifySubscriber_proposals (env : Env) (db : DB) (p : ProposalInfo)
    (sub : Subscription) :
    (notifySubscriber env db p sub).proposals_seen = db.proposals_seen := by
  unfold notifySubscriber
  by_cases hw : wantsNotif sub p.topic
  · simp only [hw, Bool.not_true, Bool.false_eq_true, if_false]
    cases sendPushNotification (env.pushResult p.id sub.id) with
    | ok b =>
        cases b
        · simp [emailFallback_proposals, logNotification]
        · simp [logNotification, updateSubscriptionSuccess]
    | error msg =>
        by_cases hm : msg == "SUBSCRIPTION_EXPIRED"
        · simp [hm, emailFallback_proposals, logNotification, deleteSubscription]
        · simp [hm, emailFallback_proposals, logNotification]
  · simp [hw]

theorem dispatchProposal_proposals (env : Env) (db : DB) (subs : List Subscription)
    (p : ProposalInfo) :
    (dispatchProposal env db subs p).proposals_seen = db.proposals_seen := by
  induction subs generalizing db with
  | nil => rfl
  | cons s rest ih =>
      simp only [dispatchProposal, List.foldl_cons] at *
      rw [ih, notifySubscriber_proposals]

theorem processProposal_log (env : Env) (db : DB) (subs : List Subscription)
    (p : ProposalInfo) :
    (processProposal env db subs p).notification_log =
      db.notification_log ++ (subs.map (notifyRows env p)).flatten := by
  unfold processProposal
  have h1 : ∀ d pid, (markProposalNotified d pid).notification_log =
      d.notification_log := by intro d pid; rfl
  rw [h1, dispatchProposal_log]
  congr 1
  cases env.diffStats p.id with
  | none =>
      simp only [markProposalSeen]
      by_cases h : db.proposals_seen.any (fun r => r.proposal_id == p.id) <;> simp [h]
  | some ad =>
      obtain ⟨a, d⟩ := ad
      simp only [markProposalSeen, updateProposalDiffStats]
      by_cases h : db.proposals_seen.any (fun r => r.proposal_id == p.id) <;> simp [h]

theorem checkProposalsPass_log (env : Env) (db : DB) (feed : List ProposalInfo) :
    (checkProposalsPass env db feed).notification_log =
      db.notification_log ++
        ((newProposalsOf db feed).map
          (fun p => (db.push_subscriptions.map (notifyRows env p)).flatten)).flatten := by
  unfold checkProposalsPass
  generalize db.push_subscriptions = subs
  generalize newProposalsOf db feed = l
  induction l generalizing db with
  | nil => simp
  | cons p rest ih =>
      simp only [List.foldl_cons, List.map_cons, List.flatten_cons]
      rw [ih, processProposal_log, List.append_assoc]

theorem emailRowsOf_fields (env : Env) (p : ProposalInfo) (sub : Subscription) :
    ∀ r ∈ emailRowsOf env p sub,
      r.proposal_id = p.id ∧ r.subscription_id = sub.id ∧ r.channel = Channel.email := by
  intro r hr
  unfold emailRowsOf at hr
  cases he : sub.email with
  | none => rw [he] at hr; simp at hr
  | some a =>
      rw [he] at hr
      by_cases hb : env.emailResult p.id sub.id <;> simp [hb] at hr <;> simp [hr]

theorem notifyRows_fields (env : Env) (p : ProposalInfo) (sub : Subscription) :
    ∀ r ∈ notifyRows env p sub,
      r.proposal_id = p.id ∧ r.subscription_id = sub.id := by
  intro r hr
  unfold notifyRows at hr
  by_cases hw : wantsNotif sub p.topic
  · simp only [hw, Bool.not_true, Bool.false_eq_true, if_false] at hr
    cases hps : sendPushNotification (env.pushResult p.id sub.id) with
    | ok b =>
        rw [hps] at hr
        cases b
        · rw [List.mem_cons] at hr
          rcases hr with rfl | hr
          · exact ⟨rfl, rfl⟩
          · have := emailRowsOf_fields env p sub r hr
            exact ⟨this.1, this.2.1⟩
        · simp at hr; simp [hr]
    | error msg =>
        rw [hps] at hr
        dsimp only at hr
        by_cases hm : (msg == "SUBSCRIPTION_EXPIRED") = true
        · rw [if_pos hm, List.mem_cons] at hr
          rcases hr with rfl | hr
          · exact ⟨rfl, rfl⟩
          · have := emailRowsOf_fields env p sub r hr
            exact ⟨this.1, this.2.1⟩
        · rw [if_neg hm, List.mem_cons] at hr
          rcases hr with rfl | hr
          · exact ⟨rfl, rfl⟩
          · have := emailRowsOf_fields env p sub r hr
            exact ⟨this.1, this.2.1⟩
  · simp [hw] at hr

theorem notifyRows_empty_of_not_wants (env : Env) (p : ProposalInfo)
    (sub : Subscription) (h : wantsNotif sub p.topic = false) :
    notifyRows env p sub = [] := by
  unfold notifyRows
  simp [h]

theorem notifyRows_push_row (env : Env) (p : ProposalInfo) (sub : Subscription)
    (h : wantsNotif sub p.topic = true) :
    ∃ r ∈ notifyRows env p sub,
      r.proposal_id = p.id ∧ r.subscription_id = sub.id ∧ r.channel = Channel.push := by
  unfold notifyRows
  simp only [h, Bool.not_true, Bool.false_eq_true, if_false]
  cases hps : sendPushNotification (env.pushResult p.id sub.id) with
  | ok b =>
      cases b
      · exact ⟨_, List.mem_cons_self _ _, rfl, rfl, rfl⟩
      · exact ⟨_, List.mem_singleton_self _, rfl, rfl, rfl⟩
  | error msg =>
      by_cases hm : msg == "SUBSCRIPTION_EXPIRED" <;> simp only [hm, if_true, if_false]
      · exact ⟨_, List.mem_cons_self _ _, rfl, rfl, rfl⟩
      · exact ⟨_, List.mem_cons_self _ _, rfl, rfl, rfl⟩

/-! ## The notified flag across a poll invocation -/

theorem markProposalNotified_self (db : DB) (pid : Nat) :
    NotifiedAll (markProposalNotified db pid) pid := by
  intro row hrow hpid
  simp only [markProposalNotified, List.mem_map] at hrow
  obtain ⟨r, _, rfl⟩ := hrow
  by_cases h : (r.proposal_id == pid) = true
  · simp [h]
  · simp only [h, Bool.false_eq_true, if_false] at hpid ⊢
    exact absurd (by simp [hpid]) h

theorem processProposal_notifiedAll_self (env : Env) (db : DB)
    (subs : List Subscription) (p : ProposalInfo) :
    NotifiedAll (processProposal env db subs p) p.id :=
  markProposalNotified_self _ _

theorem notifiedAll_preserved_processProposal (env : Env) (db : DB)
    (subs : List Subscription) (p' : ProposalInfo) (pid : Nat)
    (h : NotifiedAll db pid) :
    NotifiedAll (processProposal env db subs p') pid := by
  by_cases hpe : p'.id = pid
  · subst hpe; exact processProposal_notifiedAll_self env db subs p'
  · unfold processProposal
    intro row hrow hpid
    simp only [markProposalNotified, List.mem_map] at hrow
    obtain ⟨r, hr, rfl⟩ := hrow
    rw [dispatchProposal_proposals] at hr
    have hpid2 : r.proposal_id = pid := by
      by_cases hb : (r.proposal_id == p'.id) = true <;> simp [hb] at hpid <;> exact hpid
    have hnot : r.notified = true := by
      -- trace the row back through the diff-stat update and the seen upsert
      set db1 := markProposalSeen db p'.id (topicName p'.topic) p'.title
        (extractCommitHash (combinedText p'.title p'.summary p'.url))
        (if p'.url.isEmpty then none else some p'.url) with hdb1
      have h1 : NotifiedAll db1 pid := by
        intro q hq hqpid
        rw [hdb1] at hq
        unfold markProposalSeen at hq
        by_cases hexists : db.proposals_seen.any (fun r => r.proposal_id == p'.id)
        · rw [if_pos hexists] at hq
          exact h q hq hqpid
        · rw [if_neg hexists] at hq
          simp only [List.mem_append, List.mem_singleton] at hq
          rcases hq with hq | rfl
          · exact h q hq hqpid
          · exact absurd hqpid (by simpa using hpe ∘ Eq.symm ∘ Eq.symm)
      cases hds : env.diffStats p'.id with
      | none =>
          rw [hds] at hr
          exact h1 r hr hpid2
      | some ad =>
          rw [hds] at hr
          obtain ⟨a, d⟩ := ad
          simp only [updateProposalDiffStats, List.mem_map] at hr
          obtain ⟨q, hq, rfl⟩ := hr
          by_cases hb : (q.proposal_id == p'.id) = true
          · simp only [hb, if_true]
            simp only [hb, if_true] at hpid2
            exact h1 q hq hpid2
          · simp only [hb, if_false]
            simp only [hb, if_false] at hpid2
            exact h1 q hq hpid2
    by_cases hb : (r.proposal_id == p'.id) = true
    · simp [hb]
    · simp [hb, hnot]

theorem notifiedAll_preserved_fold (env : Env) (subs : List Subscription)
    (l : List ProposalInfo) (pid : Nat) :
    ∀ db, NotifiedAll db pid →
      NotifiedAll (l.foldl (fun d p => processProposal env d subs p) db) pid := by
  induction l with
  | nil => intro db h; exact h
  | cons q rest ih =>
      intro db h
      exact ih _ (notifiedAll_preserved_processProposal env db subs q pid h)

theorem notifiedAll_of_mem_fold (env : Env) (subs : List Subscription)
    (l : List ProposalInfo) (p : ProposalInfo) (hp : p ∈ l) :
    ∀ db, NotifiedAll (l.foldl (fun d p => processProposal env d subs p) db) p.id := by
  induction l with
  | nil => cases hp
  | cons q rest ih =>
      intro db
      rcases List.mem_cons.mp hp with rfl | hp
      · exact notifiedAll_preserved_fold env subs rest p.id _
          (processProposal_notifiedAll_self env db subs p)
      · exact ih hp _

/-- C1: every proposal a poll invocation dispatches ends with
`notified = true` on its stored row, and the attempt log then holds at
least one row for every subscription whose topic set contained the
proposal topic in the registry snapshot used by that dispatch pass. -/
theorem c1_notification_completeness (env : Env) (db : DB)
    (feed : List ProposalInfo) (p : ProposalInfo) (sub : Subscription)
    (l : List Nat) (hp : p ∈ newProposalsOf db feed)
    (hs : sub ∈ db.push_subscriptions) (ht : sub.topics = some l)
    (htop : p.topic ∈ l) :
    (∀ row ∈ (checkProposalsPass env db feed).proposals_seen,
        row.proposal_id = p.id → row.notified = true)
    ∧ (∃ r ∈ (checkProposalsPass env db feed).notification_log,
        r.proposal_id = p.id ∧ r.subscription_id = sub.id ∧
          r.channel = Channel.push) := by
  constructor
  · exact notifiedAll_of_mem_fold env db.push_subscriptions _ p hp db
  · have hw : wantsNotif sub p.topic = true := by
      unfold wantsNotif
      rw [ht]
      simpa using htop
    obtain ⟨r, hr, hr1, hr2, hr3⟩ := notifyRows_push_row env p sub hw
    refine ⟨r, ?_, hr1, hr2, hr3⟩
    rw [checkProposalsPass_log]
    rw [List.mem_append]
    right
    rw [List.mem_flatten]
    refine ⟨(db.push_subscriptions.map (notifyRows env p)).flatten, List.mem_map_of_mem _ hp, ?_⟩
    rw [List.mem_flatten]
    exact ⟨notifyRows env p sub, List.mem_map_of_mem _ hs, hr⟩

/-- C2: a poll invocation whose surviving candidates are all already in
the dedup store writes nothing at all: no proposal rows, no attempt rows,
no registry changes.  And re-inserting an already present proposal id is
a no-op rather than an error. -/
theorem c2_idempotent_ingestion :
    (∀ (env : Env) (db : DB) (feed : List ProposalInfo),
      (∀ p ∈ feed, ¬ p.id < MIN_PROPOSAL_ID →
          p.topic ∈ trackedTopicsOf db.push_subscriptions →
          p.id ∈ db.proposals_seen.map (fun r => r.proposal_id)) →
      checkProposalsPass env db feed = db)
    ∧ (∀ (db : DB) (pid : Nat) (topic : String) (title : List Char)
        (ch : Option (List Char)) (url : Option (List Char)),
      pid ∈ db.proposals_seen.map (fun r => r.proposal_id) →
      markProposalSeen db pid topic title ch url = db) := by
  constructor
  · intro env db feed h
    have hempty : newProposalsOf db feed = [] := by
      unfold newProposalsOf filterNewProposals
      rw [List.filter_eq_nil_iff]
      intro p hp
      by_cases hmin : p.id < MIN_PROPOSAL_ID
      · simp [hmin]
      · by_cases htr : p.topic ∈ trackedTopicsOf db.push_subscriptions
        · have hin := h p hp hmin htr
          simp [hmin, hin]
        · simp [hmin, htr]
    unfold checkProposalsPass
    rw [hempty]
    rfl
  · intro db pid topic title ch url h
    unfold markProposalSeen
    have : db.proposals_seen.any (fun r => r.proposal_id == pid) = true := by
      rw [List.any_eq_true]
      simp only [List.mem_map] at h
      obtain ⟨r, hr, hpid⟩ := h
      exact ⟨r, hr, by simp [hpid]⟩
    rw [if_pos this]

/-- C3: a subscription whose topic array is empty matches no topic, so a
poll invocation adds no attempt row for it - the empty set never means
all topics. -/
theorem c3_empty_topic_set_vacuous (env : Env) (db : DB)
    (feed : List ProposalInfo) (sub : Subscription)
    (hs : sub ∈ db.push_subscriptions) (he : sub.topics = some [])
    (huniq : ∀ s ∈ db.push_subscriptions, s.id = sub.id → s = sub) :
    (∀ t, wantsNotif sub t = false)
    ∧ (checkProposalsPass env db feed).notification_log.filter
        (fun r => r.subscription_id == sub.id)
      = db.notification_log.filter (fun r => r.subscription_id == sub.id) := by
  have hw : ∀ t, wantsNotif sub t = false := by
    intro t
    unfold wantsNotif
    rw [he]
    simp
  refine ⟨hw, ?_⟩
  rw [checkProposalsPass_log, List.filter_append]
  have hnil : (((newProposalsOf db feed).map
      (fun p => (db.push_subscriptions.map (notifyRows env p)).flatten)).flatten).filter
        (fun r => r.subscription_id == sub.id) = [] := by
    rw [List.filter_eq_nil_iff]
    intro r hr
    rw [List.mem_flatten] at hr
    obtain ⟨block, hblock, hrb⟩ := hr
    rw [List.mem_map] at hblock
    obtain ⟨p, _, rfl⟩ := hblock
    rw [List.mem_flatten] at hrb
    obtain ⟨rows, hrows, hrr⟩ := hrb
    rw [List.mem_map] at hrows
    obtain ⟨s, hsmem, rfl⟩ := hrows
    have hsid := (notifyRows_fields env p s r hrr).2
    by_cases hid : s.id = sub.id
    · have : s = sub := huniq s hsmem hid
      subst this
      rw [notifyRows_empty_of_not_wants env p s (hw p.topic)] at hrr
      cases hrr
    · simp [hsid, hid]
  rw [hnil, List.append_nil]

/-! ## Registry effects of the dispatcher -/

theorem emailFallback_subs (env : Env) (db : DB) (p : ProposalInfo)
    (sub : Subscription) :
    (emailFallback env db p sub).push_subscriptions = db.push_subscriptions := by
  unfold emailFallback
  cases sub.email with
  | none => rfl
  | some a =>
      by_cases he : env.emailResult p.id sub.id <;> simp [he, logNotification]

theorem notifySubscriber_subs_filter_nil (env : Env) (db : DB)
    (p : ProposalInfo) (s : Subscription) (e : String)
    (h : db.push_subscriptions.filter (fun x => x.endpoint == e) = []) :
    (notifySubscriber env db p s).push_subscriptions.filter
      (fun x => x.endpoint == e) = [] := by
  have hmem := List.filter_eq_nil_iff.mp h
  rw [List.filter_eq_nil_iff]
  intro a ha
  unfold notifySubscriber at ha
  by_cases hw : wantsNotif s p.topic
  · simp only [hw, Bool.not_true, Bool.false_eq_true, if_false] at ha
    cases hps : sendPushNotification (env.pushResult p.id s.id) with
    | ok b =>
        rw [hps] at ha
        cases b
        · rw [emailFallback_subs] at ha
          exact hmem a ha
        · simp only [logNotification, updateSubscriptionSuccess, List.mem_map] at ha
          obtain ⟨x, hx, rfl⟩ := ha
          by_cases hb : (x.endpoint == s.endpoint) = true <;> simp only [hb, if_true, if_false]
          · simpa using hmem x hx
          · exact hmem x hx
    | error msg =>
        rw [hps] at ha
        dsimp only at ha
        by_cases hm : (msg == "SUBSCRIPTION_EXPIRED") = true
        · rw [if_pos hm, emailFallback_subs] at ha
          simp only [logNotification, deleteSubscription, List.mem_filter] at ha
          exact hmem a ha.1
        · rw [if_neg hm, emailFallback_subs] at ha
          exact hmem a ha
  · simp only [hw] at ha
    simp only [Bool.not_false, if_true] at ha
    exact hmem a ha

theorem dispatch_subs_filter_nil (env : Env) (subs : List Subscription)
    (p : ProposalInfo) (e : String) :
    ∀ db : DB, db.push_subscriptions.filter (fun x => x.endpoint == e) = [] →
      (dispatchProposal env db subs p).push_subscriptions.filter
        (fun x => x.endpoint == e) = [] := by
  induction subs with
  | nil => intro db h; exact h
  | cons s rest ih =>
      intro db h
      exact ih _ (notifySubscriber_subs_filter_nil env db p s e h)

theorem markProposalSeen_subs (db : DB) (pid : Nat) (topic : String)
    (title : List Char) (ch : Option (List Char)) (url : Option (List Char)) :
    (markProposalSeen db pid topic title ch url).push_subscriptions =
      db.push_subscriptions := by
  unfold markProposalSeen
  by_cases h : db.proposals_seen.any (fun r => r.proposal_id == pid) <;> simp [h]

theorem processProposal_subs_filter_nil (env : Env) (db : DB)
    (subs : List Subscription) (p : ProposalInfo) (e : String)
    (h : db.push_subscriptions.filter (fun x => x.endpoint == e) = []) :
    (processProposal env db subs p).push_subscriptions.filter
      (fun x => x.endpoint == e) = [] := by
  unfold processProposal
  have h2 : ∀ d : DB, (markProposalNotified d p.id).push_subscriptions =
      d.push_subscriptions := fun d => rfl
  rw [show (markProposalNotified (dispatchProposal env _ subs p) p.id).push_subscriptions
      = (dispatchProposal env _ subs p).push_subscriptions from rfl]
  apply dispatch_subs_filter_nil
  cases hds : env.diffStats p.id with
  | none =>
      simpa [markProposalSeen_subs] using h
  | some ad =>
      obtain ⟨a, d⟩ := ad
      simp only [updateProposalDiffStats]
      simpa [markProposalSeen_subs] using h

theorem fold_process_subs_filter_nil (env : Env) (subs : List Subscription)
    (l : List ProposalInfo) (e : String) :
    ∀ db : DB, db.push_subscriptions.filter (fun x => x.endpoint == e) = [] →
      (l.foldl (fun d p => processProposal env d subs p) db).push_subscriptions.filter
        (fun x => x.endpoint == e) = [] := by
  induction l with
  | nil => intro db h; exact h
  | cons q rest ih =>
      intro db h
      exact ih _ (processProposal_subs_filter_nil env db subs q e h)

theorem notifySubscriber_gone_deletes (env : Env) (db : DB) (p : ProposalInfo)
    (sub : Subscription) (st : Nat) (hw : wantsNotif sub p.topic = true)
    (hps : env.pushResult p.id sub.id = PushSendResult.httpErr st)
    (hst : st = 410 ∨ st = 404) :
    (notifySubscriber env db p sub).push_subscriptions.filter
      (fun x => x.endpoint == sub.endpoint) = [] := by
  have hgone : sendPushNotification (env.pushResult p.id sub.id) =
      Except.error "SUBSCRIPTION_EXPIRED" := by
    rw [hps]
    unfold sendPushNotification
    rcases hst with rfl | rfl <;> simp
  unfold notifySubscriber
  rw [hgone]
  simp only [hw, Bool.not_true, Bool.false_eq_true, if_false]
  rw [if_pos (by simp), emailFallback_subs]
  simp only [logNotification, deleteSubscription]
  rw [List.filter_eq_nil_iff]
  intro a ha
  rw [List.mem_filter] at ha
  simpa using ha.2

theorem dispatch_gone (env : Env) (subs : List Subscription) (p : ProposalInfo)
    (sub : Subscription) (st : Nat) (hsub : sub ∈ subs)
    (hw : wantsNotif sub p.topic = true)
    (hps : env.pushResult p.id sub.id = PushSendResult.httpErr st)
    (hst : st = 410 ∨ st = 404) :
    ∀ db : DB, (dispatchProposal env db subs p).push_subscriptions.filter
      (fun x => x.endpoint == sub.endpoint) = [] := by
  induction subs with
  | nil => cases hsub
  | cons s rest ih =>
      intro db
      rcases List.mem_cons.mp hsub with rfl | hsub
      · simp only [dispatchProposal, List.foldl_cons]
        exact dispatch_subs_filter_nil env rest p sub.endpoint _
          (notifySubscriber_gone_deletes env db p sub st hw hps hst)
      · simp only [dispatchProposal, List.foldl_cons]
        exact ih hsub _

/-- C5: the channel turns HTTP 410/404 into the distinguishable expiry
signal; a dispatch pass that sees that signal for a matching subscription
leaves the registry with no row for that endpoint; and deleting an
already deleted endpoint is a no-op. -/
theorem c5_gone_deletes_subscription :
    (∀ st : Nat, st = 410 ∨ st = 404 →
      sendPushNotification (PushSendResult.httpErr st) =
        Except.error "SUBSCRIPTION_EXPIRED")
    ∧ (∀ (env : Env) (db : DB) (feed : List ProposalInfo) (p : ProposalInfo)
        (sub : Subscription) (st : Nat),
        sub ∈ db.push_subscriptions → p ∈ newProposalsOf db feed →
        wantsNotif sub p.topic = true →
        env.pushResult p.id sub.id = PushSendResult.httpErr st →
        (st = 410 ∨ st = 404) →
        (checkProposalsPass env db feed).push_subscriptions.filter
          (fun s => s.endpoint == sub.endpoint) = [])
    ∧ (∀ (db : DB) (e : String),
        deleteSubscription (deleteSubscription db e) e = deleteSubscription db e) := by
  refine ⟨?_, ?_, ?_⟩
  · intro st hst
    unfold sendPushNotification
    rcases hst with rfl | rfl <;> simp
  · intro env db feed p sub st hsub hp hw hps hst
    unfold checkProposalsPass
    obtain ⟨l₁, l₂, hfeed⟩ := List.append_of_mem hp
    rw [hfeed, List.foldl_append, List.foldl_cons]
    apply fold_process_subs_filter_nil
    unfold processProposal
    rw [show ∀ d : DB, (markProposalNotified d p.id).push_subscriptions
        = d.push_subscriptions from fun d => rfl]
    exact dispatch_gone env db.push_subscriptions p sub st hsub hw hps hst _
  · intro db e
    unfold deleteSubscription
    simp [List.filter_filter]

/-! ## Counting attempt rows per (proposal, subscription) pair -/

theorem flatten_filter_rows_nil (env : Env) (p : ProposalInfo) (sub : Subscription)
    (q : LogRow → Bool) (hq : ∀ r, q r = true → r.subscription_id = sub.id)
    (subs : List Subscription)
    (hfilter : subs.filter (fun s => s.id == sub.id) = []) :
    ((subs.map (notifyRows env p)).flatten).filter q = [] := by
  rw [List.filter_eq_nil_iff]
  intro r hr
  rw [List.mem_flatten] at hr
  obtain ⟨rows, hrows, hrr⟩ := hr
  rw [List.mem_map] at hrows
  obtain ⟨s, hsmem, rfl⟩ := hrows
  intro hqr
  have hsid := (notifyRows_fields env p s r hrr).2
  have : s.id = sub.id := by rw [← hsid, hq r hqr]
  have hnot := List.filter_eq_nil_iff.mp hfilter s hsmem
  simp [this] at hnot

theorem flatten_filter_rows_single (env : Env) (p : ProposalInfo)
    (sub : Subscription) (q : LogRow → Bool)
    (hq : ∀ r, q r = true → r.subscription_id = sub.id) :
    ∀ subs : List Subscription,
      subs.filter (fun s => s.id == sub.id) = [sub] →
      ((subs.map (notifyRows env p)).flatten).filter q =
        (notifyRows env p sub).filter q := by
  intro subs
  induction subs with
  | nil => intro hfilter; simp at hfilter
  | cons s rest ih =>
      intro hfilter
      by_cases hb : (s.id == sub.id) = true
      · rw [List.filter_cons, if_pos hb] at hfilter
        rw [List.cons_eq_cons] at hfilter
        obtain ⟨rfl, hrest⟩ := hfilter
        simp only [List.map_cons, List.flatten_cons, List.filter_append]
        rw [flatten_filter_rows_nil env p s q hq rest hrest, List.append_nil]
      · rw [List.filter_cons, if_neg hb] at hfilter
        simp only [List.map_cons, List.flatten_cons, List.filter_append]
        rw [ih hfilter]
        have hnil : (notifyRows env p s).filter q = [] := by
          rw [List.filter_eq_nil_iff]
          intro r hr hqr
          have hsid := (notifyRows_fields env p s r hr).2
          have : s.id = sub.id := by rw [← hsid, hq r hqr]
          simp [this] at hb
        rw [hnil, List.nil_append]

theorem emailRowsOf_push_filter (env : Env) (p : ProposalInfo) (sub : Subscription) :
    (emailRowsOf env p sub).filter
      (fun r => decide (r.proposal_id = p.id ∧ r.subscription_id = sub.id ∧
        r.channel = Channel.push)) = [] := by
  rw [List.filter_eq_nil_iff]
  intro r hr hq
  have := (emailRowsOf_fields env p sub r hr).2.2
  simp only [decide_eq_true_eq] at hq
  rw [this] at hq
  exact Channel.noConfusion hq.2.2

theorem notifyRows_email_filter (env : Env) (p : ProposalInfo) (sub : Subscription)
    (hw : wantsNotif sub p.topic = true) (a : String) (hemail : sub.email = some a) :
    (notifyRows env p sub).filter
      (fun r => decide (r.proposal_id = p.id ∧ r.subscription_id = sub.id ∧
        r.channel = Channel.email)) =
      (if env.pushResult p.id sub.id = PushSendResult.delivered then []
       else [{ proposal_id := p.id, subscription_id := sub.id, channel := .email,
               status := if env.emailResult p.id sub.id then .sent else .failed,
               error := none }]) := by
  have hemailrows : emailRowsOf env p sub =
      [{ proposal_id := p.id, subscription_id := sub.id, channel := .email,
         status := if env.emailResult p.id sub.id then DeliveryStatus.sent
           else DeliveryStatus.failed, error := none }] := by
    unfold emailRowsOf
    rw [hemail]
    by_cases hb : env.emailResult p.id sub.id <;> simp [hb]
  unfold notifyRows
  simp only [hw, Bool.not_true, Bool.false_eq_true, if_false]
  cases hpr : env.pushResult p.id sub.id with
  | delivered =>
      simp [sendPushNotification]
  | httpErr st =>
      simp only [sendPushNotification]
      by_cases h4 : (st == 410 || st == 404) = true
      · rw [if_pos h4]
        simp only [if_pos (by simp : (("SUBSCRIPTION_EXPIRED" : String) ==
          "SUBSCRIPTION_EXPIRED") = true)]
        rw [List.filter_cons, if_neg (by simp), hemailrows]
        simp
      · rw [if_neg h4]
        rw [List.filter_cons, if_neg (by simp), hemailrows]
        simp
  | errNoStatus =>
      simp only [sendPushNotification]
      rw [List.filter_cons, if_neg (by simp), hemailrows]
      simp

theorem notifyRows_push_filter (env : Env) (p : ProposalInfo) (sub : Subscription)
    (hw : wantsNotif sub p.topic = true) :
    ((notifyRows env p sub).filter
      (fun r => decide (r.proposal_id = p.id ∧ r.subscription_id = sub.id ∧
        r.channel = Channel.push))).map (fun r => r.status) =
      [if env.pushResult p.id sub.id = PushSendResult.delivered then
        DeliveryStatus.sent else DeliveryStatus.failed] := by
  unfold notifyRows
  simp only [hw, Bool.not_true, Bool.false_eq_true, if_false]
  cases hpr : env.pushResult p.id sub.id with
  | delivered =>
      simp [sendPushNotification]
  | httpErr st =>
      simp only [sendPushNotification]
      by_cases h4 : (st == 410 || st == 404) = true
      · rw [if_pos h4]
        simp only [if_pos (by simp : (("SUBSCRIPTION_EXPIRED" : String) ==
          "SUBSCRIPTION_EXPIRED") = true)]
        rw [List.filter_cons, if_pos (by simp), emailRowsOf_push_filter]
        simp
      · rw [if_neg h4]
        rw [List.filter_cons, if_pos (by simp), emailRowsOf_push_filter]
        simp
  | errNoStatus =>
      simp only [sendPushNotification]
      rw [List.filter_cons, if_pos (by simp), emailRowsOf_push_filter]
      simp

/-- C6: in a dispatch pass over a registry snapshot holding exactly one
row with the subscription id, a matching subscription with a fallback
address gains exactly one email attempt row exactly when its primary
attempt is logged `failed`, and the email outcome is recorded in that row
independently of the push row. -/
theorem c6_email_fallback_exactly_once (env : Env) (db : DB)
    (subs : List Subscription) (p : ProposalInfo) (sub : Subscription)
    (a : String) (hfilter : subs.filter (fun s => s.id == sub.id) = [sub])
    (hw : wantsNotif sub p.topic = true) (hemail : sub.email = some a) :
    ((dispatchProposal env db subs p).notification_log.filter
        (fun r => decide (r.proposal_id = p.id ∧ r.subscription_id = sub.id ∧
          r.channel = Channel.email)) =
      db.notification_log.filter
        (fun r => decide (r.proposal_id = p.id ∧ r.subscription_id = sub.id ∧
          r.channel = Channel.email)) ++
        (if env.pushResult p.id sub.id = PushSendResult.delivered then []
         else [{ proposal_id := p.id, subscription_id := sub.id, channel := .email,
                 status := if env.emailResult p.id sub.id then .sent else .failed,
                 error := none }]))
    ∧ (((dispatchProposal env db subs p).notification_log.filter
        (fun r => decide (r.proposal_id = p.id ∧ r.subscription_id = sub.id ∧
          r.channel = Channel.push))).map (fun r => r.status) =
      ((db.notification_log.filter
        (fun r => decide (r.proposal_id = p.id ∧ r.subscription_id = sub.id ∧
          r.channel = Channel.push))).map (fun r => r.status)) ++
        [if env.pushResult p.id sub.id = PushSendResult.delivered then
          DeliveryStatus.sent else DeliveryStatus.failed]) := by
  constructor
  · rw [dispatchProposal_log, List.filter_append]
    rw [flatten_filter_rows_single env p sub _
      (fun r hr => (of_decide_eq_true hr).2.1) subs hfilter]
    rw [notifyRows_email_filter env p sub hw a hemail]
  · rw [dispatchProposal_log, List.filter_append, List.map_append]
    rw [flatten_filter_rows_single env p sub _
      (fun r hr => (of_decide_eq_true hr).2.1) subs hfilter]
    rw [notifyRows_push_filter env p sub hw]

/-! ## At-most-one canonical thread -/

@[simp] theorem newThreadRow_pid (pid url : String) (title : Option String)
    (c : Option Bool) : (newThreadRow pid url title c).proposal_id = pid := rfl

@[simp] theorem newThreadRow_url (pid url : String) (title : Option String)
    (c : Option Bool) : (newThreadRow pid url title c).forum_url = url := rfl

@[simp] theorem newThreadRow_canon (pid url : String) (title : Option String)
    (c : Option Bool) : (newThreadRow pid url title c).is_canonical = c.getD false := rfl

theorem addForumThread_keyNodup (store : List ForumThread) (pid url : String)
    (title : Option String) (c : Option Bool)
    (h : (threadKeys store).Nodup) :
    (threadKeys (addForumThread store pid url title c)).Nodup := by
  unfold addForumThread
  by_cases hex : (store.any (fun r => r.proposal_id == pid && r.forum_url == url)) = true
  · rw [if_pos hex]
    have heq : threadKeys (store.map (fun r =>
        if r.proposal_id == pid && r.forum_url == url then
          newThreadRow pid url title c
        else r)) = threadKeys store := by
      unfold threadKeys
      rw [List.map_map]
      apply List.map_congr_left
      intro r _
      by_cases hb : (r.proposal_id == pid && r.forum_url == url) = true
      · have hb2 : r.proposal_id = pid ∧ r.forum_url = url := by simpa using hb
        simp [Function.comp_apply, hb2.1, hb2.2]
      · have hb2 : ¬ (r.proposal_id = pid ∧ r.forum_url = url) := by simpa using hb
        simp [Function.comp_apply, hb2]
  
    rw [heq]; exact h
  · rw [if_neg hex]
    unfold threadKeys
    rw [List.map_append]
    apply List.Nodup.append h (by simp)
    intro k hk hk2
    simp only [List.map_cons, List.map_nil, List.mem_singleton] at hk2
    subst hk2
    unfold threadKeys at hk
    rw [List.mem_map] at hk
    obtain ⟨r, hr, hkey⟩ := hk
    apply hex
    rw [List.any_eq_true]
    refine ⟨r, hr, ?_⟩
    have h1 : r.proposal_id = pid := by
      have := congrArg Prod.fst hkey; simpa using this
    have h2 : r.forum_url = url := by
      have := congrArg Prod.snd hkey; simpa using this
    simp [h1, h2]

theorem canonicalRowsFor_add_other (store : List ForumThread) (pid url : String)
    (title : Option String) (c : Option Bool) (pid' : String) (hne : pid' ≠ pid) :
    canonicalRowsFor (addForumThread store pid url title c) pid' =
      canonicalRowsFor store pid' := by
  have hne2 : (pid == pid') = false := by
    simp only [beq_eq_false_iff_ne, ne_eq]
    exact fun h => hne h.symm
  unfold addForumThread canonicalRowsFor
  have hmap : ∀ st : List ForumThread,
      List.filter (fun t => t.proposal_id == pid' && t.is_canonical)
        (st.map (fun r => if r.proposal_id == pid && r.forum_url == url then
          newThreadRow pid url title c else r)) =
      List.filter (fun t => t.proposal_id == pid' && t.is_canonical) st := by
    intro st
    induction st with
    | nil => rfl
    | cons r rest ih =>
        simp only [List.map_cons, List.filter_cons]
        by_cases hb : (r.proposal_id == pid && r.forum_url == url) = true
        · have h1 : r.proposal_id = pid := by
            have : r.proposal_id = pid ∧ r.forum_url = url := by simpa using hb
            exact this.1
          simp only [hb, if_true]
          rw [show ((newThreadRow pid url title c).proposal_id == pid' &&
              (newThreadRow pid url title c).is_canonical) =
                (pid == pid' && c.getD false) by simp]
          rw [show (r.proposal_id == pid' && r.is_canonical) =
              (pid == pid' && r.is_canonical) by rw [h1]]
          rw [hne2]
          simp only [Bool.false_and, Bool.false_eq_true, if_false]
          exact ih
        · simp only [hb, Bool.false_eq_true, if_false]
          by_cases hq : (r.proposal_id == pid' && r.is_canonical) = true
          · simp only [hq, if_true]
            rw [ih]
          · simp only [hq, Bool.false_eq_true, if_false]
            exact ih
  by_cases hex : (store.any (fun r => r.proposal_id == pid && r.forum_url == url)) = true
  · rw [if_pos hex]
    exact hmap store
  · rw [if_neg hex, List.filter_append]
    have : List.filter (fun t => t.proposal_id == pid' && t.is_canonical)
        [newThreadRow pid url title c] = [] := by
      simp [List.filter_cons, hne2]
    rw [this, List.append_nil]

theorem keymatch_filter_len_le_one (store : List ForumThread) (pid url : String)
    (h : (threadKeys store).Nodup) :
    (store.filter (fun r => r.proposal_id == pid && r.forum_url == url)).length ≤ 1 := by
  induction store with
  | nil => simp
  | cons r rest ih =>
      unfold threadKeys at h
      rw [List.map_cons, List.nodup_cons] at h
      obtain ⟨hnotin, hrest⟩ := h
      rw [List.filter_cons]
      by_cases hb : (r.proposal_id == pid && r.forum_url == url) = true
      · rw [if_pos hb]
        have hb2 : r.proposal_id = pid ∧ r.forum_url = url := by simpa using hb
        have hnil : rest.filter (fun r => r.proposal_id == pid && r.forum_url == url) = [] := by
          rw [List.filter_eq_nil_iff]
          intro a ha hqa
          have ha2 : a.proposal_id = pid ∧ a.forum_url = url := by simpa using hqa
          apply hnotin
          rw [List.mem_map]
          exact ⟨a, ha, by rw [ha2.1, ha2.2, hb2.1, hb2.2]⟩
        rw [hnil]
        simp
      · rw [if_neg hb]
        exact ih hrest

theorem canonicalRowsFor_add_self_le_one (store : List ForumThread)
    (pid url : String) (title : Option String)
    (hnodup : (threadKeys store).Nodup)
    (hnone : canonicalRowsFor store pid = []) :
    (canonicalRowsFor (addForumThread store pid url title (some true)) pid).length ≤ 1 := by
  have hnonep : ∀ a ∈ store, (a.proposal_id == pid && a.is_canonical) = false := by
    intro a ha
    have := List.filter_eq_nil_iff.mp hnone a ha
    simpa using this
  have hlen : ∀ st : List ForumThread,
      (∀ a ∈ st, (a.proposal_id == pid && a.is_canonical) = false) →
      (List.filter (fun t => t.proposal_id == pid && t.is_canonical)
        (st.map (fun r => if r.proposal_id == pid && r.forum_url == url then
          newThreadRow pid url title (some true) else r))).length =
      (st.filter (fun r => r.proposal_id == pid && r.forum_url == url)).length := by
    intro st
    induction st with
    | nil => intro _; rfl
    | cons r rest ih =>
        intro hnp
        simp only [List.map_cons, List.filter_cons]
        by_cases hb : (r.proposal_id == pid && r.forum_url == url) = true
        · simp only [hb, if_true]
          rw [show ((newThreadRow pid url title (some true)).proposal_id == pid &&
              (newThreadRow pid url title (some true)).is_canonical) = true by simp]
          simp only [if_true, List.length_cons]
          rw [ih (fun a ha => hnp a (List.mem_cons_of_mem r ha))]
        · simp only [hb, Bool.false_eq_true, if_false]
          rw [hnp r (List.mem_cons_self r rest)]
          simp only [Bool.false_eq_true, if_false]
          exact ih (fun a ha => hnp a (List.mem_cons_of_mem r ha))
  unfold addForumThread
  by_cases hex : (store.any (fun r => r.proposal_id == pid && r.forum_url == url)) = true
  · rw [if_pos hex]
    unfold canonicalRowsFor
    rw [hlen store hnonep]
    exact keymatch_filter_len_le_one store pid url hnodup
  · rw [if_neg hex]
    unfold canonicalRowsFor
    rw [List.filter_append]
    unfold canonicalRowsFor at hnone
    rw [hnone, List.nil_append]
    calc (List.filter (fun t => t.proposal_id == pid && t.is_canonical)
          [newThreadRow pid url title (some true)]).length
        ≤ [newThreadRow pid url title (some true)].length := List.length_filter_le _ _
      _ ≤ 1 := by simp

theorem resolverLoop_inv (search : String → Option (String × String)) :
    ∀ (ids : List String) (store : List ForumThread),
      (threadKeys store).Nodup → AtMostOneCanonical store → ids.Nodup →
      (∀ pid ∈ ids, canonicalRowsFor store pid = []) →
      (threadKeys (resolverLoop search ids store)).Nodup ∧
        AtMostOneCanonical (resolverLoop search ids store) := by
  intro ids
  induction ids with
  | nil => intro store h1 h2 _ _; exact ⟨h1, h2⟩
  | cons pid rest ih =>
      intro store h1 h2 h3 h4
      rw [List.nodup_cons] at h3
      obtain ⟨hpidrest, hrestnodup⟩ := h3
      unfold resolverLoop
      cases hse : search pid with
      | none =>
          exact ih store h1 h2 hrestnodup
            (fun q hq => h4 q (List.mem_cons_of_mem pid hq))
      | some ut =>
          obtain ⟨u, t⟩ := ut
          apply ih
          · exact addForumThread_keyNodup store pid u (some t) (some true) h1
          · intro q
            by_cases hq : q = pid
            · subst hq
              exact canonicalRowsFor_add_self_le_one store q u (some t) h1
                (h4 q (List.mem_cons_self q rest))
            · rw [canonicalRowsFor_add_other store pid u (some t) (some true) q hq]
              exact h2 q
          · exact hrestnodup
          · intro q hq
            have hne : q ≠ pid := fun h => hpidrest (h ▸ hq)
            rw [canonicalRowsFor_add_other store pid u (some t) (some true) q hne]
            exact h4 q (List.mem_cons_of_mem pid hq)

theorem detectForumPostsRun_inv (search : String → Option (String × String))
    (store : List ForumThread) (ids : List String)
    (h1 : (threadKeys store).Nodup) (h2 : AtMostOneCanonical store)
    (h3 : ids.Nodup) :
    (threadKeys (detectForumPostsRun search store ids)).Nodup ∧
      AtMostOneCanonical (detectForumPostsRun search store ids) := by
  unfold detectForumPostsRun
  apply resolverLoop_inv search _ store h1 h2
  · exact List.Nodup.filter _ h3
  · intro pid hpid
    unfold getProposalsWithoutCanonicalForum at hpid
    rw [List.mem_filter] at hpid
    have := hpid.2
    rw [Bool.not_eq_true', List.any_eq_false] at this
    unfold canonicalRowsFor
    rw [List.filter_eq_nil_iff]
    intro a ha
    simpa using this a ha

/-- C7: starting from a forum table with unique (proposal, url) keys and
at most one canonical thread per proposal, any sequence of Forum Thread
Resolver runs - each over its own duplicate-free candidate list and its
own search outcomes - preserves the at-most-one-canonical invariant. -/
theorem c7_at_most_one_canonical
    (runs : List ((String → Option (String × String)) × List String))
    (store : List ForumThread)
    (h1 : (threadKeys store).Nodup) (h2 : AtMostOneCanonical store)
    (h3 : ∀ r ∈ runs, r.2.Nodup) :
    AtMostOneCanonical (resolverRuns runs store) := by
  unfold resolverRuns
  induction runs generalizing store with
  | nil => exact h2
  | cons run rest ih =>
      rw [List.foldl_cons]
      have hrun := detectForumPostsRun_inv run.1 store run.2 h1 h2
        (h3 run (List.mem_cons_self run rest))
      exact ih _ hrun.1 hrun.2 (fun r hr => h3 r (List.mem_cons_of_mem run hr))

/-! ## Diff-stat finality -/

theorem map_update_filter_other (l : List ProposalRow) (qid a b pid : Nat)
    (hne : qid ≠ pid) :
    (l.map (fun r => if r.proposal_id == qid then
        { r with lines_added := some a, lines_removed := some b } else r)).filter
      (fun r => r.proposal_id == pid) =
    l.filter (fun r => r.proposal_id == pid) := by
  induction l with
  | nil => rfl
  | cons r rest ih =>
      simp only [List.map_cons, List.filter_cons]
      by_cases hb : (r.proposal_id == qid) = true
      · have hr : r.proposal_id = qid := by simpa using hb
        have h2 : (r.proposal_id == pid) = false := by simp [hr, hne]
        simp only [hb, if_true, h2, Bool.false_eq_true, if_false]
        exact ih
      · simp only [hb, Bool.false_eq_true, if_false]
        by_cases hq : (r.proposal_id == pid) = true
        · simp only [hq, if_true]; rw [ih]
        · simp only [hq, Bool.false_eq_true, if_false]; exact ih

theorem filter_pid_eq_singleton (l : List ProposalRow) (p : ProposalRow)
    (hmem : p ∈ l) (hnodup : (l.map (fun r => r.proposal_id)).Nodup) :
    l.filter (fun r => r.proposal_id == p.proposal_id) = [p] := by
  induction l with
  | nil => cases hmem
  | cons r rest ih =>
      rw [List.map_cons, List.nodup_cons] at hnodup
      obtain ⟨hnotin, hrest⟩ := hnodup
      rw [List.filter_cons]
      rcases List.mem_cons.mp hmem with rfl | hmem
      · rw [if_pos (by simp)]
        have hnil : rest.filter (fun q => q.proposal_id == p.proposal_id) = [] := by
          rw [List.filter_eq_nil_iff]
          intro q hq hbeq
          apply hnotin
          rw [List.mem_map]
          exact ⟨q, hq, by simpa using hbeq⟩
        rw [hnil]
      · have hb : (r.proposal_id == p.proposal_id) = false := by
          simp only [beq_eq_false_iff_ne, ne_eq]
          intro heq
          apply hnotin
          rw [List.mem_map]
          exact ⟨p, hmem, heq.symm⟩
        rw [hb]
        simp only [Bool.false_eq_true, if_false]
        exact ih hmem hrest

theorem backfillStep_filter_other (fetch : Nat → DiffOutcome) (d : DB)
    (qid pid : Nat) (hne : qid ≠ pid) :
    (backfillStep fetch d qid).proposals_seen.filter (fun r => r.proposal_id == pid) =
      d.proposals_seen.filter (fun r => r.proposal_id == pid) := by
  unfold backfillStep
  cases fetch qid with
  | stats a b =>
      unfold updateProposalDiffStats
      exact map_update_filter_other d.proposals_seen qid a b pid hne
  | noData =>
      unfold updateProposalDiffStats
      exact map_update_filter_other d.proposals_seen qid 0 0 pid hne
  | errored => rfl

theorem fold_backfill_filter (fetch : Nat → DiffOutcome) (rest : List ProposalRow)
    (pid : Nat) (target : List ProposalRow) :
    ∀ d : DB, (∀ q ∈ rest, q.proposal_id ≠ pid) →
      d.proposals_seen.filter (fun r => r.proposal_id == pid) = target →
      ((rest.foldl (fun d r => backfillStep fetch d r.proposal_id) d)).proposals_seen.filter
        (fun r => r.proposal_id == pid) = target := by
  induction rest with
  | nil => intro d _ h; exact h
  | cons q tail ih =>
      intro d hne h
      rw [List.foldl_cons]
      apply ih
      · intro q' hq'
        exact hne q' (List.mem_cons_of_mem q hq')
      · rw [backfillStep_filter_other fetch d q.proposal_id pid
          (hne q (List.mem_cons_self q tail))]
        exact h

theorem selected_lines_none (db : DB) (batchSize : Nat) (q : ProposalRow)
    (hq : q ∈ getProposalsNeedingDiffStats db batchSize) :
    q ∈ db.proposals_seen ∧ q.lines_added = none := by
  unfold getProposalsNeedingDiffStats at hq
  have hq2 := List.mem_of_mem_take hq
  have hq3 := (List.perm_insertionSort
    (fun a b : ProposalRow => b.proposal_id ≤ a.proposal_id) _).mem_iff.mp hq2
  rw [List.mem_filter] at hq3
  refine ⟨hq3.1, ?_⟩
  have := hq3.2
  rw [Bool.and_eq_true] at this
  simpa using this.1

/-- C8: a proposal whose diff stats are already resolved (including the
0/0 sentinel) is untouched by a backfill invocation, whichever value the
force flag carries: its stored row survives the pass unchanged. -/
theorem c8_diff_stat_finality (fetch : Nat → DiffOutcome) (db : DB)
    (batchSize : Nat) (force : Bool) (p : ProposalRow)
    (hnodup : (db.proposals_seen.map (fun r => r.proposal_id)).Nodup)
    (hmem : p ∈ db.proposals_seen) (hres : p.lines_added.isSome) :
    (backfillPass fetch db batchSize force).proposals_seen.filter
      (fun r => r.proposal_id == p.proposal_id) = [p] := by
  have hpre : db.proposals_seen.filter (fun r => r.proposal_id == p.proposal_id) = [p] :=
    filter_pid_eq_singleton db.proposals_seen p hmem hnodup
  have hsel : ∀ q ∈ getProposalsNeedingDiffStats db batchSize,
      q.proposal_id ≠ p.proposal_id := by
    intro q hq heq
    obtain ⟨hqmem, hqnone⟩ := selected_lines_none db batchSize q hq
    have : q = p := List.inj_on_of_nodup_map hnodup hqmem hmem heq
    rw [this] at hqnone
    rw [hqnone] at hres
    exact Bool.false_ne_true hres
  unfold backfillPass
  exact fold_backfill_filter fetch _ p.proposal_id [p] db hsel hpre

/-! ## Trigger coordinator decision rules -/

theorem getVerificationRun_isSome_eq (listing : Option (List WorkflowRun)) (pid : Nat) :
    (getVerificationRunForProposal listing pid).isSome
      = decide (∃ r ∈ listedRuns listing, runTitleMatches (verifyTag pid) r = true) := by
  cases listing with
  | none => simp [getVerificationRunForProposal, listedRuns]
  | some rs =>
      simp only [getVerificationRunForProposal, listedRuns]
      by_cases h : ∃ r ∈ rs, runTitleMatches (verifyTag pid) r = true
      · rw [decide_eq_true h]
        exact List.find?_isSome.mpr h
      · rw [decide_eq_false h]
        rw [Bool.eq_false_iff]
        intro hsome
        exact h (List.find?_isSome.mp hsome)

theorem hasRecentCommentaryRun_eq (listing : Option (List WorkflowRun))
    (now : Int) (pid : Nat) :
    hasRecentCommentaryRun listing now pid 30
      = decide (∃ r ∈ listedRuns listing, runTitleMatches (commentaryTag pid) r = true
          ∧ ∃ t, r.created_at = some t ∧ now - t < 30 * 60000) := by
  cases listing with
  | none => simp [hasRecentCommentaryRun, listedRuns]
  | some rs =>
      simp only [hasRecentCommentaryRun, listedRuns]
      have hpt : ∀ r : WorkflowRun,
          (runTitleMatches (commentaryTag pid) r
            && (match r.created_at with
                | some t => decide (now - 30 * 60 * 1000 < t)
                | none => false)) = true
          ↔ (runTitleMatches (commentaryTag pid) r = true
              ∧ ∃ t, r.created_at = some t ∧ now - t < 30 * 60000) := by
        intro r
        rw [Bool.and_eq_true]
        constructor
        · rintro ⟨hm, hc⟩
          refine ⟨hm, ?_⟩
          cases hca : r.created_at with
          | none => rw [hca] at hc; exact absurd hc (by simp)
          | some t =>
              rw [hca] at hc
              simp only [decide_eq_true_eq] at hc
              refine ⟨t, rfl, ?_⟩
              rw [show (30 * 60000 : Int) = 30 * 60 * 1000 by norm_num]
              exact sub_lt_comm.mp hc
        · rintro ⟨hm, t, hca, hlt⟩
          refine ⟨hm, ?_⟩
          rw [hca]
          simp only [decide_eq_true_eq]
          apply sub_lt_comm.mp
          rw [show (30 * 60 * 1000 : Int) = 30 * 60000 by norm_num]
          exact hlt
      by_cases h : ∃ r ∈ rs, runTitleMatches (commentaryTag pid) r = true
          ∧ ∃ t, r.created_at = some t ∧ now - t < 30 * 60000
      · rw [decide_eq_true h]
        rw [List.any_eq_true]
        obtain ⟨r, hr, hprop⟩ := h
        exact ⟨r, hr, (hpt r).mpr hprop⟩
      · rw [decide_eq_false h]
        rw [Bool.eq_false_iff]
        intro hany
        rw [List.any_eq_true] at hany
        obtain ⟨r, hr, hb⟩ := hany
        exact h ⟨r, hr, (hpt r).mp hb⟩

/-- C4 (amended): the decisions the two coordinators actually implement,
as ordered skip rules.  The verification coordinator skips on any listed
verify-tagged run regardless of status, outcome or age; the commentary
coordinator consults the local commentary store, then a 30-minute
trailing window over the listing. -/
theorem c4_amended_trigger_rules (minId pid : Nat)
    (detail : Option ProposalDetail) (commentaryCount : Nat)
    (listing : Option (List WorkflowRun)) (now : Int) :
    verificationDecision minId pid detail listing
        = amendedVerificationRule minId pid detail listing
    ∧ commentaryDecision minId pid detail commentaryCount listing now
        = amendedCommentaryRule minId pid detail commentaryCount listing now := by
  constructor
  · unfold verificationDecision amendedVerificationRule
    rw [getVerificationRun_isSome_eq]
  · unfold commentaryDecision amendedCommentaryRule
    rw [hasRecentCommentaryRun_eq]

/-- C4 (counterexample): with a stale successful commentary job in the
listing and an empty local commentary store, the commentary coordinator
triggers, while the decision rule as the claim states it skips on the
successful-job check. -/
theorem c4_counterexample :
    commentaryDecision 140000 140001
        (some { expectedWasmHash := none, canisterId := some "abc" })
        0 staleSuccessListing 1000000000000
      = TriggerDecision.trigger
    ∧ claimCommentaryDecision 140000 140001
        (some { expectedWasmHash := none, canisterId := some "abc" })
        staleSuccessListing 1000000000000 30
      = TriggerDecision.skip "successful job already listed" := by
  constructor
  · decide
  · decide

/-! ## Stored topic preferences -/

theorem find?_append_none {α : Type} (p : α → Bool) (l₁ l₂ : List α)
    (h : l₁.find? p = none) : (l₁ ++ l₂).find? p = l₂.find? p := by
  induction l₁ with
  | nil => rfl
  | cons a rest ih =>
      rw [List.find?_cons] at h
      cases hb : p a with
      | true => simp [hb] at h
      | false =>
          simp only [hb] at h
          rw [List.cons_append, List.find?_cons]
          simp only [hb]
          exact ih h

/-- C10 (amended): `saveSubscription` stores `[17]` when the topics
argument is absent and stores the given array otherwise, so the stored
`topics` column is never null - but an explicitly empty array is stored
as the empty topic set. -/
theorem c10_save_subscription_topics (store : List Subscription)
    (e p a : String) (em : Option String) (t : Option (List Nat)) (newId : Nat) :
    ((saveSubscription store e p a em t newId).find?
      (fun s => s.endpoint == e)).map (fun s => s.topics) =
      some (some (t.getD [17])) := by
  unfold saveSubscription
  by_cases hex : (store.any (fun s => s.endpoint == e)) = true
  · rw [if_pos hex]
    induction store with
    | nil => simp at hex
    | cons s rest ih =>
        have hend : (if (s.endpoint == e) = true
            then { s with p256dh := p, auth := a, email := em, topics := some (t.getD [17]) }
            else s).endpoint = s.endpoint := by
          by_cases hb : (s.endpoint == e) = true <;> simp [hb]
        rw [List.map_cons, List.find?_cons, hend]
        by_cases hb : (s.endpoint == e) = true
        · simp only [hb, if_true, Option.map_some']
        · simp only [hb]
          apply ih
          rw [List.any_cons] at hex
          rcases Bool.or_eq_true_iff.mp hex with h | h
          · exact absurd h hb
          · exact h
  · rw [if_neg hex]
    have hnone : store.find? (fun s => s.endpoint == e) = none := by
      rw [List.find?_eq_none]
      intro s hs
      have := List.any_eq_false.mp (Bool.eq_false_iff.mpr hex) s hs
      simpa using this
    rw [find?_append_none _ _ _ hnone]
    simp [List.find?_cons]

/-- C10 (counterexample): a call that passes an explicitly empty topics
array stores an empty topic set, because only an absent argument falls
back to `[17]`. -/
theorem c10_counterexample :
    ((saveSubscription [] "endpoint-a" "key1" "key2" none (some []) 7).find?
      (fun s => s.endpoint == "endpoint-a")).map (fun s => s.topics) =
      some (some ([] : List Nat)) := by
  decide

/-! ## Witnesses: each claim theorem applied at concrete inputs -/

theorem c1_witness :
    (∀ row ∈ (checkProposalsPass wEnvDelivered wDB [wProposal]).proposals_seen,
        row.proposal_id = wProposal.id → row.notified = true)
    ∧ (∃ r ∈ (checkProposalsPass wEnvDelivered wDB [wProposal]).notification_log,
        r.proposal_id = wProposal.id ∧ r.subscription_id = wSub.id ∧
          r.channel = Channel.push) :=
  c1_notification_completeness wEnvDelivered wDB [wProposal] wProposal wSub [17]
    (by decide) (by decide) (by decide) (by decide)

theorem c2_witness :
    checkProposalsPass wEnvDelivered wDBSeen [wProposal] = wDBSeen
    ∧ markProposalSeen wDBSeen 140102 "Protocol Canister Management"
        "Upgrade X".toList none none = wDBSeen :=
  ⟨c2_idempotent_ingestion.1 wEnvDelivered wDBSeen [wProposal] (by decide),
   c2_idempotent_ingestion.2 wDBSeen 140102 "Protocol Canister Management"
     "Upgrade X".toList none none (by decide)⟩

theorem c3_witness :
    (∀ t, wantsNotif wSubEmptyTopics t = false)
    ∧ (checkProposalsPass wEnvDelivered wDBEmptyTopics [wProposal]).notification_log.filter
        (fun r => r.subscription_id == wSubEmptyTopics.id)
      = wDBEmptyTopics.notification_log.filter
        (fun r => r.subscription_id == wSubEmptyTopics.id) :=
  c3_empty_topic_set_vacuous wEnvDelivered wDBEmptyTopics [wProposal]
    wSubEmptyTopics (by decide) (by decide) (by decide)

theorem c5_witness :
    (checkProposalsPass wEnvGone wDB [wProposal]).push_subscriptions.filter
      (fun s => s.endpoint == wSub.endpoint) = [] :=
  c5_gone_deletes_subscription.2.1 wEnvGone wDB [wProposal] wProposal wSub 410
    (by decide) (by decide) (by decide) (by decide) (Or.inl rfl)

theorem c6_witness :
    ((dispatchProposal wEnvFail wDB [wSub] wProposal).notification_log.filter
        (fun r => decide (r.proposal_id = wProposal.id ∧
          r.subscription_id = wSub.id ∧ r.channel = Channel.email)) =
      wDB.notification_log.filter
        (fun r => decide (r.proposal_id = wProposal.id ∧
          r.subscription_id = wSub.id ∧ r.channel = Channel.email)) ++
        (if wEnvFail.pushResult wProposal.id wSub.id = PushSendResult.delivered then []
         else [{ proposal_id := wProposal.id, subscription_id := wSub.id,
                 channel := .email,
                 status := if wEnvFail.emailResult wProposal.id wSub.id then .sent
                   else .failed,
                 error := none }]))
    ∧ (((dispatchProposal wEnvFail wDB [wSub] wProposal).notification_log.filter
        (fun r => decide (r.proposal_id = wProposal.id ∧
          r.subscription_id = wSub.id ∧ r.channel = Channel.push))).map
          (fun r => r.status) =
      ((wDB.notification_log.filter
        (fun r => decide (r.proposal_id = wProposal.id ∧
          r.subscription_id = wSub.id ∧ r.channel = Channel.push))).map
          (fun r => r.status)) ++
        [if wEnvFail.pushResult wProposal.id wSub.id = PushSendResult.delivered then
          DeliveryStatus.sent else DeliveryStatus.failed]) :=
  c6_email_fallback_exactly_once wEnvFail wDB [wSub] wProposal wSub
    "user@example.org" (by decide) (by decide) (by decide)

theorem c7_witness :
    AtMostOneCanonical (resolverRuns
      [(fun _ => some ("https://forum.example.org/t/1", "Thread title"), ["140102"])]
      []) :=
  c7_at_most_one_canonical
    [(fun _ => some ("https://forum.example.org/t/1", "Thread title"), ["140102"])]
    [] (by simp [threadKeys])
    (by intro pid; simp [canonicalRowsFor])
    (by
      intro r hr
      rw [List.mem_singleton] at hr
      subst hr
      simp)

theorem c8_witness :
    (backfillPass (fun _ => DiffOutcome.noData) wDBSeen 20 false).proposals_seen.filter
      (fun r => r.proposal_id == wSeenRow.proposal_id) = [wSeenRow] :=
  c8_diff_stat_finality (fun _ => DiffOutcome.noData) wDBSeen 20 false wSeenRow
    (by decide) (by decide) (by decide)
